import Mathlib

/-!
Shallow embedding of the cocoscrapers plugin-discovery and parallel-execution
engine (`lib/cocoscrapers/__init__.py` and `lib/cocoscrapers/modules/Thread_pool.py`).

Python exceptions are modelled with `Except String`; the external collaborators
(the settings store, the filesystem walk, the module loader) are fields of an
`Env` record; the nondeterministic completion order of `as_completed` is an
explicit `order` parameter constrained to be a permutation in the theorems.
-/

namespace Cocoscrapers

/-- A Python exception, carrying its message. -/
abbrev Err := String

/-- Result of a Python call that may raise. -/
abbrev PyResult (α : Type) := Except Err α

/-- The capability object `module.source` exposed by a loaded plugin module:
a `pack_capable` flag (read by `pack_sources`) and a tag distinguishing
distinct capability objects. -/
structure Source where
  pack_capable : Bool
  tag : Nat
deriving DecidableEq

/-- `(module_name, module.source)` — what `_load_module` returns on success. -/
abbrev LoadedPlugin := String × Source

/-- The external collaborators of `__init__.py`:
* `rootExists` — whether `osWalk(sourceFolderLocation)` yields a first entry
  (`[x[1] for x in osWalk(...)][0]` raises `IndexError` otherwise);
* `subFolders` — the immediate subdirectories of the plugin root (`x[1]` of
  the first walk entry);
* `modulesIn f` — the `(module_name, is_pkg)` pairs produced by
  `walk_packages` over subfolder `f` (a missing folder yields `[]`);
* `setting k` — `getSetting(k)`, which may raise;
* `load f n` — `loader.find_spec(n).loader.load_module(n).source` for the
  loader of subfolder `f`, which may raise. -/
structure Env where
  rootExists : Bool
  subFolders : List String
  modulesIn : String → List (String × Bool)
  setting : String → PyResult String
  load : String → String → PyResult Source

/-- `enabledCheck(module_name)`: `True` iff `getSetting("provider." + module_name)`
equals `"true"`; any raised exception is caught, logged, and answered `True`
(fail-open). -/
def enabledCheck (env : Env) (module_name : String) : Bool :=
  match env.setting ("provider." ++ module_name) with
  | .ok v => v == "true"
  | .error _ => true

/-- The warning text `'Error: Loading module: "%s": %s' % (module_name, e)`. -/
def loadErrorMessage (module_name msg : String) : String :=
  "Error: Loading module: \"" ++ module_name ++ "\": " ++ msg

/-- `_load_module(loader, module_name)`: on success the `(name, source)` pair
and no log output; on any exception `None`, with one warning line (containing
the plugin name and the message) when the `debug` flag is set. -/
def _load_module (env : Env) (debug : Bool) (folder module_name : String) :
    Option LoadedPlugin × List String :=
  match env.load folder module_name with
  | .ok src => (some (module_name, src), [])
  | .error e => (none, if debug then [loadErrorMessage module_name e] else [])

/-- The `if specified_folders:` override inside `sources`: a non-`None`,
non-empty argument replaces the walked subfolder list (Python truthiness —
`some []` is falsy and keeps the walk result). -/
def effectiveFolders (walked : List String) (specified_folders : Option (List String)) :
    List String :=
  match specified_folders with
  | some l => if l.isEmpty then walked else l
  | none => walked

/-- The `modules_to_load` list built by `sources`: for each selected folder,
each non-package module that passes `ret_all or enabledCheck(module_name)`,
as a `(folder, module_name)` pair in enumeration order. -/
def modulesToLoad (env : Env) (ret_all : Bool) (folders : List String) :
    List (String × String) :=
  folders.flatMap fun f =>
    (env.modulesIn f).filterMap fun m =>
      if m.2 then none
      else if ret_all || enabledCheck env m.1 then some (f, m.1) else none

/-- All leaf (non-package) module names under the given folders, in
enumeration order. -/
def allLeafModules (env : Env) (folders : List String) : List String :=
  folders.flatMap fun f =>
    (env.modulesIn f).filterMap fun m => if m.2 then none else some m.1

/-- The body of the `try:` block of `sources`: walk the root (raising
`IndexError` when it yields nothing), apply the `specified_folders` override,
build `modules_to_load`, load in parallel (the `as_completed` completion order
is the `order` parameter) and keep the non-`None` results. -/
def sourcesBody (env : Env) (debug : Bool) (specified_folders : Option (List String))
    (ret_all : Bool) (order : List (String × String) → List (String × String)) :
    PyResult (List LoadedPlugin) :=
  if env.rootExists then
    .ok ((order (modulesToLoad env ret_all
        (effectiveFolders env.subFolders specified_folders))).filterMap
      fun p => (_load_module env debug p.1 p.2).1)
  else
    .error "IndexError: list index out of range"

/-- `sources(specified_folders, ret_all)`: the `try:` body with a catch-all
`except:` that logs and returns `[]` — the function never raises. -/
def sources (env : Env) (debug : Bool) (specified_folders : Option (List String))
    (ret_all : Bool) (order : List (String × String) → List (String × String)) :
    List LoadedPlugin :=
  match sourcesBody env debug specified_folders ret_all order with
  | .ok l => l
  | .error _ => []

/-- One iteration of the `pack_sources` loop: skip packages, otherwise load
the module (which may raise) and append its name when `source.pack_capable`. -/
def packStep (env : Env) (sourceSubFolder : String) (acc : List String)
    (m : String × Bool) : PyResult (List String) :=
  if m.2 then pure acc
  else do
    let src ← env.load sourceSubFolder m.1
    pure (if src.pack_capable then acc ++ [m.1] else acc)

/-- The body of the `try:` block of `pack_sources`: sequentially load every
non-package module of the one subfolder, keeping the names whose `source`
object has `pack_capable` set; the first raising load aborts the loop. -/
def pack_sourcesBody (env : Env) (sourceSubFolder : String) : PyResult (List String) :=
  (env.modulesIn sourceSubFolder).foldlM (packStep env sourceSubFolder) []

/-- `pack_sources(sourceSubFolder)`: the `try:` body with a catch-all
`except:` that logs and falls through — on any raised exception the function
returns `None` (there is no `return` in the handler), never the exception. -/
def pack_sources (env : Env) (sourceSubFolder : String) : Option (List String) :=
  match pack_sourcesBody env sourceSubFolder with
  | .ok l => some l
  | .error _ => none

end Cocoscrapers

namespace ThreadPool

open Cocoscrapers (Err PyResult)

/-- `tp = ThreadPoolExecutor(max_workers=40)` — the shared pool's capacity. -/
def tpMaxWorkers : Nat := 40

/-- Counting abstraction of the shared executor: tasks submitted but not yet
started, and tasks currently executing on a worker. -/
structure PoolState where
  pending : Nat
  running : Nat
deriving DecidableEq

/-- One scheduling step of the executor: a call site submits a task, a worker
starts a queued task (only when a worker is free, i.e. fewer than `cap` tasks
are running — the executor's documented `max_workers` bound), or a running
task finishes (normally or by raising). -/
inductive PoolStep (cap : Nat) : PoolState → PoolState → Prop where
  | submit (p r : Nat) : PoolStep cap ⟨p, r⟩ ⟨p + 1, r⟩
  | start (p r : Nat) : r < cap → PoolStep cap ⟨p + 1, r⟩ ⟨p, r + 1⟩
  | finish (p r : Nat) : PoolStep cap ⟨p, r + 1⟩ ⟨p, r⟩

/-- Reachability under `PoolStep`. -/
abbrev PoolReachable (cap : Nat) : PoolState → PoolState → Prop :=
  Relation.ReflTransGen (PoolStep cap)

/-- The list of futures built by `run_and_wait`'s submission loop: one task
per item, in submission order, each recording its own outcome. -/
def runAndWaitFutures {ι υ : Type} (func : ι → PyResult υ) (iterable : List ι) :
    List (PyResult υ) :=
  iterable.map fun item => func item

/-- `concurrent.futures.wait` with the default `ALL_COMPLETED`: returns the
`(done, not_done)` pair once every future is finished — futures that raised
are in `done` like the rest, and `not_done` is empty. -/
def pyWait {υ : Type} (futures : List (PyResult υ)) :
    List (PyResult υ) × List (PyResult υ) :=
  (futures, [])

/-- `run_and_wait(func, iterable)`: submit one task per item, wait for all,
return `None`. -/
def run_and_wait {ι υ : Type} (func : ι → PyResult υ) (iterable : List ι) : Unit :=
  let futures := runAndWaitFutures func iterable
  let _ := pyWait futures
  ()

/-- `run_and_wait_multi(func, iterable) = tp.map(lambda args: func(*args), iterable)`:
the lazy result sequence holds, in submission order, the outcome of the task
for each argument tuple. -/
def run_and_wait_multi {τ ρ : Type} (func : τ → PyResult ρ) (iterable : List τ) :
    List (PyResult ρ) :=
  iterable.map fun args => func args

/-- Iterating the whole mapped-result sequence: yields the values in order
until the first stored exception, which is re-raised at its position. -/
def collectResults {ρ : Type} : List (PyResult ρ) → PyResult (List ρ)
  | [] => .ok []
  | .ok v :: rest => (collectResults rest).map fun l => v :: l
  | .error e :: _ => .error e

/-- What a caller iterating the mapped-result sequence observes: the values
yielded before the first stored exception, and that exception if one exists
(the generator terminates there, so later results are unreachable). -/
def consumeUntilError {ρ : Type} : List (PyResult ρ) → List ρ × Option Err
  | [] => ([], none)
  | .ok v :: rest => (v :: (consumeUntilError rest).1, (consumeUntilError rest).2)
  | .error e :: _ => ([], some e)

/-- A producer's returned object in `run_pipelined`: `None`, a single
(non-list) value, or a list of values. -/
inductive PRes (α : Type) where
  | pnone : PRes α
  | single : α → PRes α
  | plist : List α → PRes α

/-- The consumer submissions generated from one producer result by
`if results:` followed by the `isinstance(results, list)` split: a falsy
object (None, an empty list, or a falsy single value per `truthy`) forwards
nothing; a truthy list forwards each element; a truthy single value forwards
itself. -/
def forwardedBy {α : Type} (truthy : α → Bool) : PRes α → List α
  | .pnone => []
  | .single a => if truthy a then [a] else []
  | .plist l => if l.isEmpty then [] else l

/-- The forwarding rule as the specification words it: nothing for `None`,
one invocation for any single (non-list) result, one per element for a list. -/
def forwardedSpecRule {α : Type} : PRes α → List α
  | .pnone => []
  | .single a => [a]
  | .plist l => l

/-- `run_pipelined(producer_func, consumer_func, items)`: submit one producer
task per item; as each completes (completion order = the `order` parameter),
a raising producer is discarded (`except: pass`) and a successful result is
forwarded per `forwardedBy`. The value returned here is the list of consumer
task arguments, in submission order — the observable outcome of the call. -/
def run_pipelined {α ι : Type} (truthy : α → Bool)
    (producer_func : ι → PyResult (PRes α)) (items : List ι)
    (order : List ι → List ι) : List α :=
  (order items).flatMap fun item =>
    match producer_func item with
    | .ok results => forwardedBy truthy results
    | .error _ => []

end ThreadPool

namespace Cocoscrapers

/-- Concrete environment for witnesses: categories `a` and `b`; `a` holds leaf
modules `a1` (enabled), `a2` (disabled) and a package `apkg`; `b` holds leaf
module `b1` whose enablement lookup raises; every load succeeds. -/
def envAllOk : Env :=
  ⟨true, ["a", "b"],
    fun f =>
      if f = "a" then [("a1", false), ("a2", false), ("apkg", true)]
      else if f = "b" then [("b1", false)]
      else [],
    fun k =>
      if k = "provider.a1" then .ok "true"
      else if k = "provider.a2" then .ok "false"
      else if k = "provider.b1" then .error "boom"
      else .ok "",
    fun _ _ => .ok ⟨false, 0⟩⟩

/-- Concrete environment whose plugin root does not exist. -/
def envNoRoot : Env :=
  ⟨false, [], fun _ => [], fun _ => .ok "", fun _ _ => .ok ⟨false, 0⟩⟩

end Cocoscrapers

namespace Cocoscrapers

/-- Environment for the Oracle witness: `provider.p1` raises, `provider.p2`
reads `"true"`, every other key reads `"false"`. -/
def envOracle : Env :=
  ⟨true, [], fun _ => [],
    fun k =>
      if k = "provider.p1" then .error "io error"
      else if k = "provider.p2" then .ok "true"
      else .ok "false",
    fun _ _ => .ok ⟨false, 0⟩⟩

/-- Claim C2: for every input (any categories argument, any `ret_all` flag,
any filesystem state including a nonexistent plugin root), `sources` never
raises — it is a total function into a plain list — and whenever any error
occurs outside the per-module load handler (in this embedding, whenever the
`try:` body raises, in particular when the plugin root does not exist) it
returns the empty list. -/
theorem sources_never_raises (env : Env) (debug : Bool)
    (specified_folders : Option (List String)) (ret_all : Bool)
    (order : List (String × String) → List (String × String)) :
    (env.rootExists = false → sources env debug specified_folders ret_all order = [])
    ∧ ∀ e, sourcesBody env debug specified_folders ret_all order = .error e →
        sources env debug specified_folders ret_all order = [] := by
  constructor
  · intro h
    simp [sources, sourcesBody, h]
  · intro e h
    simp [sources, h]

/-- Witness for C2: on the concrete environment with no plugin root,
`sources` returns the empty list. -/
theorem sources_never_raises_witness :
    envNoRoot.rootExists = false ∧ sources envNoRoot false none false id = [] :=
  ⟨rfl, (sources_never_raises envNoRoot false none false id).1 rfl⟩

/-- Claim C4: `enabledCheck` returns `true` when the settings lookup for
`provider.<name>` raises (fail-open, the exception is caught), returns `true`
when the lookup yields exactly `"true"`, and returns `false` when the lookup
succeeds with any other value. -/
theorem enabledCheck_contract (env : Env) (module_name : String) :
    (∀ e, env.setting ("provider." ++ module_name) = .error e →
      enabledCheck env module_name = true)
    ∧ (env.setting ("provider." ++ module_name) = .ok "true" →
      enabledCheck env module_name = true)
    ∧ ∀ v, env.setting ("provider." ++ module_name) = .ok v → v ≠ "true" →
      enabledCheck env module_name = false := by
  refine ⟨fun e h => ?_, fun h => ?_, fun v h hv => ?_⟩
  · simp [enabledCheck, h]
  · simp [enabledCheck, h]
  · simp [enabledCheck, h]
    exact hv

/-- Witness for C4: on `envOracle`, plugin `p1` (raising lookup) is enabled,
`p2` (value `"true"`) is enabled, `p3` (value `"false"`) is disabled. -/
theorem enabledCheck_contract_witness :
    enabledCheck envOracle "p1" = true
    ∧ enabledCheck envOracle "p2" = true
    ∧ enabledCheck envOracle "p3" = false :=
  ⟨(enabledCheck_contract envOracle "p1").1 "io error" rfl,
   (enabledCheck_contract envOracle "p2").2.1 rfl,
   (enabledCheck_contract envOracle "p3").2.2 "false" rfl (by decide)⟩

end Cocoscrapers

namespace ThreadPool

/-- Claim C9: in every state reachable from the idle pool, the number of
tasks concurrently executing against the shared pool never exceeds its
configured capacity of 40 workers, no matter how submissions, starts and
finishes from distinct call sites interleave. -/
theorem pool_capacity_invariant (s : PoolState)
    (h : PoolReachable tpMaxWorkers ⟨0, 0⟩ s) : s.running ≤ tpMaxWorkers := by
  induction h with
  | refl => exact Nat.zero_le _
  | tail hsteps step ih =>
    cases step with
    | submit p r => exact ih
    | start p r hlt => exact hlt
    | finish p r => exact Nat.le_of_succ_le ih

/-- Witness for C9: the state with one running task is reachable (submit,
then start), and the invariant bounds it by the capacity. -/
theorem pool_capacity_invariant_witness :
    PoolReachable tpMaxWorkers ⟨0, 0⟩ ⟨0, 1⟩
    ∧ (PoolState.mk 0 1).running ≤ tpMaxWorkers := by
  have hreach : PoolReachable tpMaxWorkers ⟨0, 0⟩ ⟨0, 1⟩ :=
    Relation.ReflTransGen.tail
      (Relation.ReflTransGen.tail Relation.ReflTransGen.refl (PoolStep.submit 0 0))
      (PoolStep.start 0 0 (by decide))
  exact ⟨hreach, pool_capacity_invariant ⟨0, 1⟩ hreach⟩

end ThreadPool

namespace ThreadPool

open Cocoscrapers (Err PyResult)

/-- Claim C7: for every function and finite list of argument tuples on which
the function does not raise, `run_and_wait_multi` returns the results in
submission order, equal to the sequential map over the tuples. -/
theorem run_and_wait_multi_order {τ ρ : Type} (func : τ → PyResult ρ)
    (g : τ → ρ) (iterable : List τ)
    (h : ∀ t ∈ iterable, func t = .ok (g t)) :
    run_and_wait_multi func iterable = iterable.map (fun t => .ok (g t))
    ∧ collectResults (run_and_wait_multi func iterable) = .ok (iterable.map g) := by
  induction iterable with
  | nil => exact ⟨rfl, rfl⟩
  | cons t ts ih =>
    have ht : func t = .ok (g t) := h t (List.mem_cons_self t ts)
    have hts := ih fun x hx => h x (List.mem_cons_of_mem t hx)
    constructor
    · simp only [run_and_wait_multi, List.map_cons, ht]
      simpa only [run_and_wait_multi] using congrArg (List.cons (Except.ok (g t))) hts.1
    · show collectResults (func t :: run_and_wait_multi func ts) = _
      rw [ht, collectResults, hts.2]
      rfl

/-- Concrete query function for the C7 witness. -/
def funcQueryOk : Nat → PyResult Nat := fun n => .ok (n * 10)

/-- Witness for C7: on `[1, 2, 3]` with a never-raising function, iterating
the mapped results yields exactly the sequential map, in order. -/
theorem run_and_wait_multi_order_witness :
    collectResults (run_and_wait_multi funcQueryOk [1, 2, 3]) = .ok [10, 20, 30] := by
  have h := run_and_wait_multi_order funcQueryOk (fun n => n * 10) [1, 2, 3]
    (fun t _ => rfl)
  exact h.2

/-- Claim C10 (implicit): `run_and_wait_multi` does not isolate per-item
failures — when the function raises on some tuple, the stored exception is
re-raised at that tuple's position while iterating the lazy result sequence,
after yielding the values of the tuples before it, and the results after that
position are unreachable through the iterator (the conclusion does not depend
on the function's behavior on `post`). -/
theorem run_and_wait_multi_reraises {τ ρ : Type} (func : τ → PyResult ρ)
    (g : τ → ρ) (pre : List τ) (bad : τ) (post : List τ) (e : Err)
    (hpre : ∀ t ∈ pre, func t = .ok (g t)) (hbad : func bad = .error e) :
    consumeUntilError (run_and_wait_multi func (pre ++ bad :: post))
      = (pre.map g, some e) := by
  induction pre with
  | nil =>
    show consumeUntilError (func bad :: run_and_wait_multi func post) = _
    rw [hbad, consumeUntilError]
    rfl
  | cons t ts ih =>
    have ht : func t = .ok (g t) := hpre t (List.mem_cons_self t ts)
    have hts := ih fun x hx => hpre x (List.mem_cons_of_mem t hx)
    show consumeUntilError (func t :: run_and_wait_multi func (ts ++ bad :: post)) = _
    rw [ht, consumeUntilError, hts]
    rfl

/-- Concrete raising function for the C10 witness. -/
def funcQueryRaise : Nat → PyResult Nat :=
  fun n => if n = 2 then .error "division by zero" else .ok (n * 10)

/-- Witness for C10: with `[1, 2, 3]` and a function raising on `2`, the
iterator yields `10`, then re-raises; `3`'s result is never seen. -/
theorem run_and_wait_multi_reraises_witness :
    consumeUntilError (run_and_wait_multi funcQueryRaise [1, 2, 3])
      = ([10], some "division by zero") :=
  run_and_wait_multi_reraises funcQueryRaise (fun n => n * 10) [1] 2 [3]
    "division by zero"
    (fun t ht => by
      have : t = 1 := List.mem_singleton.mp ht
      rw [this]
      rfl)
    rfl

/-- Claim C8: `run_and_wait` submits one task per item, waits until every
submitted task has finished (raised tasks are in the `done` set like the
rest, and nothing remains pending), returns nothing, and a task's outcome is
unchanged when sibling tasks behave differently (e.g. raise). -/
theorem run_and_wait_contract {ι υ : Type} (func func' : ι → PyResult υ)
    (iterable : List ι) (k : Nat)
    (hagree : ∀ x, iterable[k]? = some x → func x = func' x) :
    (runAndWaitFutures func iterable).length = iterable.length
    ∧ pyWait (runAndWaitFutures func iterable) = (runAndWaitFutures func iterable, [])
    ∧ run_and_wait func iterable = ()
    ∧ (runAndWaitFutures func iterable)[k]? = (runAndWaitFutures func' iterable)[k]? := by
  refine ⟨by simp [runAndWaitFutures], rfl, rfl, ?_⟩
  simp only [runAndWaitFutures, List.getElem?_map]
  cases hx : iterable[k]? with
  | none => rfl
  | some x => simp [hagree x hx]

/-- Witness for C8: the second task's outcome is the same whether its
siblings succeed (`funcQueryOk`) or raise (`funcQueryRaise` raises on `2` —
here the roles make tasks 1 and 3 the differing siblings). -/
theorem run_and_wait_contract_witness :
    (runAndWaitFutures funcQueryOk [2, 1, 3]).length = 3
    ∧ run_and_wait funcQueryOk [2, 1, 3] = ()
    ∧ (runAndWaitFutures funcQueryOk [2, 1, 3])[0]?
        = (runAndWaitFutures (fun n => if n = 2 then .ok (n * 10) else .error "boom")
            [2, 1, 3])[0]? := by
  have h := run_and_wait_contract funcQueryOk
    (fun n => if n = 2 then .ok (n * 10) else .error "boom") [2, 1, 3] 0
    (fun x hx => by
      have : x = 2 := by simpa using hx.symm
      rw [this]
      rfl)
  exact ⟨h.1, h.2.2.1, h.2.2.2⟩

end ThreadPool

namespace ThreadPool

open Cocoscrapers (Err PyResult)

/-- Python truthiness for a single `int` producer result: nonzero. -/
def truthyInt : Int → Bool := fun n => decide (n ≠ 0)

/-- The producer of the specification's pipeline example, except that the
single value returned for item `3` is the falsy `0`:
`producer(1) -> [10, 11]`, `producer(2)` raises, `producer(3) -> 0`. -/
def prodEx : Nat → PyResult (PRes Int) := fun i =>
  if i = 1 then .ok (.plist [10, 11])
  else if i = 2 then .error "boom"
  else if i = 3 then .ok (.single 0)
  else .ok .pnone

/-- Counterexample to C5 as stated: the claim's forwarding rule (one consumer
invocation for every single non-list result of a successful producer) expects
the invocation multiset `[10, 11, 0]` here, but `run_pipelined`'s
`if results:` truthiness gate drops the falsy single value `0`, so the
consumer is invoked only on `[10, 11]`. -/
theorem run_pipelined_counterexample :
    run_pipelined truthyInt prodEx [1, 2, 3] id = [10, 11]
    ∧ ([1, 2, 3].flatMap fun i =>
        match prodEx i with
        | .ok r => forwardedSpecRule r
        | .error _ => []) = [10, 11, 0]
    ∧ ¬ ([10, 11] : List Int).Perm [10, 11, 0] :=
  ⟨by decide, by decide, by decide⟩

/-- The `consumer_futures` list built by `run_pipelined`: one consumer task
per forwarded value, in submission order, each recording its own outcome. -/
def run_pipelinedConsumerFutures {α ι υ : Type} (truthy : α → Bool)
    (producer_func : ι → PyResult (PRes α)) (consumer_func : α → PyResult υ)
    (items : List ι) (order : List ι → List ι) : List (PyResult υ) :=
  (run_pipelined truthy producer_func items order).map fun r => consumer_func r

/-- The return of the whole `run_pipelined` call: after the completion-order
loop, `if consumer_futures: wait(consumer_futures)` (the wait is skipped on
an empty list and trivial there), then fall off the end — `None` either
way. -/
def run_pipelinedReturn {α ι υ : Type} (truthy : α → Bool)
    (producer_func : ι → PyResult (PRes α)) (consumer_func : α → PyResult υ)
    (items : List ι) (order : List ι → List ι) : Unit :=
  let consumer_futures :=
    run_pipelinedConsumerFutures truthy producer_func consumer_func items order
  let _ := if consumer_futures.isEmpty then (consumer_futures, [])
           else pyWait consumer_futures
  ()

/-- Claim C5 as amended: for every input list, the multiset of consumer
invocations equals, over the successful producers in completion order:
nothing for a `None`, empty-list, or falsy single result; one invocation for
a truthy single (non-list) result; one invocation per element for a
non-empty list result. Producer failures are discarded and neither stop
stage 1 nor stage 2; the multiset is independent of the completion order;
and the call returns nothing, after every submitted consumer task has
finished (the wait sees every consumer future — raised ones included — done
and none pending). -/
theorem run_pipelined_multiset {α ι υ : Type} (truthy : α → Bool)
    (producer_func : ι → PyResult (PRes α)) (consumer_func : α → PyResult υ)
    (items : List ι)
    (order : List ι → List ι) (hord : (order items).Perm items) :
    (run_pipelined truthy producer_func items order).Perm
      (items.flatMap fun item =>
        match producer_func item with
        | .ok results => forwardedBy truthy results
        | .error _ => [])
    ∧ pyWait (run_pipelinedConsumerFutures truthy producer_func consumer_func
          items order)
        = (run_pipelinedConsumerFutures truthy producer_func consumer_func
            items order, [])
    ∧ run_pipelinedReturn truthy producer_func consumer_func items order = () := by
  refine ⟨?_, rfl, rfl⟩
  unfold run_pipelined
  exact hord.flatMap_right _

/-- Concrete consumer for the C5 witness. -/
def consEx : Int → PyResult Int := fun n => .ok n

/-- Witness for amended C5: on the example input the consumer is invoked
exactly on the forwarded values `{10, 11}` of the successful producers, and
the call returns nothing once both consumer tasks are done. -/
theorem run_pipelined_multiset_witness :
    (run_pipelined truthyInt prodEx [1, 2, 3] id).Perm [10, 11]
    ∧ run_pipelinedReturn truthyInt prodEx consEx [1, 2, 3] id = () := by
  have h := run_pipelined_multiset truthyInt prodEx consEx [1, 2, 3] id
    (List.Perm.refl _)
  exact ⟨h.1.trans (by decide), h.2.2⟩

end ThreadPool

namespace Cocoscrapers

/-- Environment for the `pack_sources` counterexample: one `torrents`
category with leaf modules `t1` (whose load raises) and `t2` (pack-capable). -/
def envPackFail : Env :=
  ⟨true, ["torrents"],
    fun f => if f = "torrents" then [("t1", false), ("t2", false)] else [],
    fun _ => .ok "true",
    fun _ n => if n = "t1" then .error "boom" else .ok ⟨true, 2⟩⟩

/-- Counterexample to C3 as stated: on `envPackFail` the load of `t1` raises
inside the loop body (the `try:` body evaluates to that exception), but the
caller-visible result of `pack_sources` is the `None` marker — the
`except:` handler catches the exception, logs, and falls through, so the
load failure does not surface to the caller as an exception. -/
theorem pack_sources_counterexample :
    pack_sourcesBody envPackFail "torrents" = .error "boom"
    ∧ pack_sources envPackFail "torrents" = none :=
  ⟨rfl, rfl⟩

/-- Claim C3 as amended: when a leaf module's load raises, `pack_sources`
aborts that specific call — the modules after the failing one are never
loaded (the conclusion holds for every continuation `post` of the module
list) — and the exception is caught at call level and the function returns
`None` instead of a name list; the failure is not swallowed per item as in
Discovery, but it reaches the caller as the `None` marker, not as a raised
exception. -/
theorem pack_sources_abort (env : Env) (sourceSubFolder : String)
    (pre : List (String × Bool)) (n : String) (post : List (String × Bool))
    (e : Err)
    (hmods : env.modulesIn sourceSubFolder = pre ++ (n, false) :: post)
    (hpre : ∀ m ∈ pre, m.2 = false → ∃ s, env.load sourceSubFolder m.1 = .ok s)
    (hfail : env.load sourceSubFolder n = .error e) :
    pack_sourcesBody env sourceSubFolder = .error e
    ∧ pack_sources env sourceSubFolder = none := by
  have hbody : pack_sourcesBody env sourceSubFolder = .error e := by
    unfold pack_sourcesBody
    rw [hmods]
    have main : ∀ (l : List (String × Bool)) (acc : List String),
        (∀ m ∈ l, m.2 = false → ∃ s, env.load sourceSubFolder m.1 = .ok s) →
        (l ++ (n, false) :: post).foldlM (packStep env sourceSubFolder) acc
          = .error e := by
      intro l
      induction l with
      | nil =>
        intro acc _
        rw [List.nil_append, List.foldlM_cons]
        have hstep : packStep env sourceSubFolder acc (n, false) = .error e := by
          simp [packStep, hfail]
        rw [hstep]
        rfl
      | cons m ms ih =>
        intro acc hmem
        rw [List.cons_append, List.foldlM_cons]
        cases hm : m.2 with
        | true =>
          have hstep : packStep env sourceSubFolder acc m = pure acc := by
            simp [packStep, hm]
          rw [hstep]
          simpa using ih acc fun x hx hxf => hmem x (List.mem_cons_of_mem m hx) hxf
        | false =>
          obtain ⟨s, hs⟩ := hmem m (List.mem_cons_self m ms) hm
          have hstep : packStep env sourceSubFolder acc m
              = .ok (if s.pack_capable then acc ++ [m.1] else acc) := by
            simp [packStep, hm, hs]
          rw [hstep]
          simpa using ih _ fun x hx hxf => hmem x (List.mem_cons_of_mem m hx) hxf
    exact main pre [] hpre
  exact ⟨hbody, by simp [pack_sources, hbody]⟩

/-- Witness for amended C3: on `envPackFail`, where `t1`'s load raises before
`t2` is reached, `pack_sources` answers `None`. -/
theorem pack_sources_abort_witness :
    pack_sources envPackFail "torrents" = none :=
  (pack_sources_abort envPackFail "torrents" [] "t1" [("t2", false)] "boom"
    rfl (fun m hm => absurd hm (List.not_mem_nil m)) rfl).2

end Cocoscrapers

namespace Cocoscrapers

/-- When the plugin root exists, `sources` is the parallel-load collection
over `modules_to_load` in completion order. -/
theorem sources_eq (env : Env) (debug : Bool)
    (specified_folders : Option (List String)) (ret_all : Bool)
    (order : List (String × String) → List (String × String))
    (hroot : env.rootExists = true) :
    sources env debug specified_folders ret_all order
      = (order (modulesToLoad env ret_all
          (effectiveFolders env.subFolders specified_folders))).filterMap
        fun p => (_load_module env debug p.1 p.2).1 := by
  simp [sources, sourcesBody, hroot]

/-- Every entry of `modules_to_load` names a selected folder and a non-package
module of that folder. -/
theorem mem_modulesToLoad {env : Env} {ret_all : Bool} {folders : List String}
    {p : String × String} (hp : p ∈ modulesToLoad env ret_all folders) :
    p.1 ∈ folders ∧ (p.2, false) ∈ env.modulesIn p.1 := by
  unfold modulesToLoad at hp
  rw [List.mem_flatMap] at hp
  obtain ⟨f, hf, hp⟩ := hp
  rw [List.mem_filterMap] at hp
  obtain ⟨⟨mn, mp⟩, hm, hmp⟩ := hp
  cases mp with
  | true => simp at hmp
  | false =>
    cases hr : (ret_all || enabledCheck env mn) with
    | true =>
      rw [hr] at hmp
      simp only [if_true, if_false, Bool.false_eq_true, ite_false, ite_true,
        Option.some.injEq] at hmp
      rw [← hmp]
      exact ⟨hf, hm⟩
    | false =>
      rw [hr] at hmp
      simp at hmp

/-- When every listed load succeeds, the collected names are exactly the
listed module names, in collection order. -/
theorem map_fst_filterMap_load (env : Env) (debug : Bool) :
    ∀ L : List (String × String),
      (∀ p ∈ L, ∃ s, env.load p.1 p.2 = .ok s) →
      ((L.filterMap fun p => (_load_module env debug p.1 p.2).1).map Prod.fst)
        = L.map Prod.snd := by
  intro L
  induction L with
  | nil => intro _; rfl
  | cons p ps ih =>
    intro h
    obtain ⟨s, hs⟩ := h p (List.mem_cons_self p ps)
    have hp : (_load_module env debug p.1 p.2).1 = some (p.2, s) := by
      simp [_load_module, hs]
    simp only [List.filterMap_cons, hp, List.map_cons]
    rw [ih fun q hq => h q (List.mem_cons_of_mem p hq)]

/-- Inner step of `modulesToLoad_map_snd`, over one folder's module list. -/
theorem filterMap_mods_map_snd (env : Env) (ret_all : Bool) (f : String)
    (ms : List (String × Bool)) :
    ((ms.filterMap fun m =>
        if m.2 then none
        else if ret_all || enabledCheck env m.1 then some (f, m.1) else none).map
      Prod.snd)
      = (ms.filterMap fun m => if m.2 then none else some m.1).filter
          fun n => ret_all || enabledCheck env n := by
  induction ms with
  | nil => rfl
  | cons m ms ihm =>
    rw [List.filterMap_cons, List.filterMap_cons]
    cases hm : m.2 with
    | true => simpa using ihm
    | false =>
      cases hr : (ret_all || enabledCheck env m.1) with
      | true =>
        simp [List.filter_cons, hr] at ihm ⊢
        exact ihm
      | false =>
        simp [List.filter_cons, hr] at ihm ⊢
        exact ihm

/-- The module names listed by `modules_to_load` are the leaf module names
passing the `ret_all or enabledCheck` gate, in enumeration order. -/
theorem modulesToLoad_map_snd (env : Env) (ret_all : Bool) (folders : List String) :
    (modulesToLoad env ret_all folders).map Prod.snd
      = (allLeafModules env folders).filter fun n => ret_all || enabledCheck env n := by
  induction folders with
  | nil => rfl
  | cons f fs ih =>
    have h1 : modulesToLoad env ret_all (f :: fs)
        = ((env.modulesIn f).filterMap fun m =>
            if m.2 then none
            else if ret_all || enabledCheck env m.1 then some (f, m.1) else none)
          ++ modulesToLoad env ret_all fs := by
      simp [modulesToLoad, List.flatMap_cons]
    have h2 : allLeafModules env (f :: fs)
        = ((env.modulesIn f).filterMap fun m => if m.2 then none else some m.1)
          ++ allLeafModules env fs := by
      simp [allLeafModules, List.flatMap_cons]
    rw [h1, h2, List.map_append, List.filter_append, ih, filterMap_mods_map_snd]

/-- Claim C1: for every plugin set in which every leaf module's load succeeds,
`sources` with `ret_all = False` returns, as a multiset of names, exactly the
leaf modules for which `enabledCheck` answers `true`, and with
`ret_all = True` the full set of leaf modules regardless of the Oracle — for
every completion order of the parallel loads. -/
theorem discover_enablement (env : Env) (debug : Bool)
    (specified_folders : Option (List String))
    (order : List (String × String) → List (String × String))
    (hroot : env.rootExists = true)
    (hord : ∀ l, (order l).Perm l)
    (hload : ∀ f n, f ∈ effectiveFolders env.subFolders specified_folders →
      (n, false) ∈ env.modulesIn f → ∃ s, env.load f n = .ok s) :
    ((sources env debug specified_folders false order).map Prod.fst).Perm
      ((allLeafModules env (effectiveFolders env.subFolders specified_folders)).filter
        fun n => enabledCheck env n)
    ∧ ((sources env debug specified_folders true order).map Prod.fst).Perm
      (allLeafModules env (effectiveFolders env.subFolders specified_folders)) := by
  have key : ∀ ret_all : Bool,
      ((sources env debug specified_folders ret_all order).map Prod.fst).Perm
        ((allLeafModules env
            (effectiveFolders env.subFolders specified_folders)).filter
          fun n => ret_all || enabledCheck env n) := by
    intro ret_all
    rw [sources_eq env debug specified_folders ret_all order hroot]
    have hmem : ∀ p ∈ order (modulesToLoad env ret_all
        (effectiveFolders env.subFolders specified_folders)),
        ∃ s, env.load p.1 p.2 = .ok s := by
      intro p hp
      have hpL := ((hord _).mem_iff).mp hp
      have hstruct := mem_modulesToLoad hpL
      exact hload p.1 p.2 hstruct.1 hstruct.2
    rw [map_fst_filterMap_load env debug _ hmem]
    have hperm := (hord (modulesToLoad env ret_all
        (effectiveFolders env.subFolders specified_folders))).map Prod.snd
    rw [modulesToLoad_map_snd] at hperm
    exact hperm
  constructor
  · have h := key false
    simpa using h
  · have h := key true
    simpa using h

/-- Witness for C1: on `envAllOk` (every load succeeds; `a1` enabled, `a2`
disabled, `b1` fail-open enabled, `apkg` a package), discovery without
disabled plugins yields `{a1, b1}` and with them `{a1, a2, b1}`. -/
theorem discover_enablement_witness :
    ((sources envAllOk false none false id).map Prod.fst).Perm ["a1", "b1"]
    ∧ ((sources envAllOk false none true id).map Prod.fst).Perm ["a1", "a2", "b1"] := by
  have h := discover_enablement envAllOk false none id rfl (fun l => List.Perm.refl l)
    (fun f n _ _ => ⟨⟨false, 0⟩, rfl⟩)
  exact ⟨h.1.trans (by decide), h.2.trans (by decide)⟩

end Cocoscrapers

namespace Cocoscrapers

/-- Environment for the C6 witness: one category `a` with leaf modules `a1`
(loads fine) and `b1` (load raises `boom`); everything enabled. -/
def envLoadFail : Env :=
  ⟨true, ["a"],
    fun f => if f = "a" then [("a1", false), ("b1", false)] else [],
    fun _ => .ok "true",
    fun _ n => if n = "b1" then .error "boom" else .ok ⟨false, 0⟩⟩

/-- A selected folder's non-package module passing the
`ret_all or enabledCheck` gate is listed in `modules_to_load`. -/
theorem modulesToLoad_mem {env : Env} {ret_all : Bool} {folders : List String}
    {f n : String} (hf : f ∈ folders) (hn : (n, false) ∈ env.modulesIn f)
    (hgate : (ret_all || enabledCheck env n) = true) :
    (f, n) ∈ modulesToLoad env ret_all folders := by
  unfold modulesToLoad
  rw [List.mem_flatMap]
  refine ⟨f, hf, ?_⟩
  rw [List.mem_filterMap]
  exact ⟨(n, false), hn, by simp [hgate]⟩

/-- Claim C6: when a plugin's resolution/instantiation raises, `_load_module`
catches the exception and returns the `None` marker, with one warning line —
containing the plugin name and the message — exactly when the `debug`
diagnostics flag is enabled; consequently (when every load of that module
name raises) the failed plugin is absent from `sources`' output while the
batch continues: every sibling leaf module that passes the inclusion gate
and whose load succeeds is still collected in `sources`' output. -/
theorem load_module_isolation (env : Env) (debug : Bool)
    (folder module_name : String) (e : Err)
    (specified_folders : Option (List String)) (ret_all : Bool)
    (order : List (String × String) → List (String × String))
    (hord : ∀ l, (order l).Perm l)
    (hfail : env.load folder module_name = .error e)
    (hallfail : ∀ f s, env.load f module_name ≠ .ok s) :
    (_load_module env debug folder module_name).1 = none
    ∧ (_load_module env debug folder module_name).2
        = (if debug then [loadErrorMessage module_name e] else [])
    ∧ loadErrorMessage module_name e
        = "Error: Loading module: \"" ++ module_name ++ "\": " ++ e
    ∧ module_name ∉ (sources env debug specified_folders ret_all order).map Prod.fst
    ∧ ∀ f' n' s', env.rootExists = true →
        f' ∈ effectiveFolders env.subFolders specified_folders →
        (n', false) ∈ env.modulesIn f' →
        (ret_all || enabledCheck env n') = true →
        env.load f' n' = .ok s' →
        (n', s') ∈ sources env debug specified_folders ret_all order := by
  refine ⟨by simp [_load_module, hfail], by simp [_load_module, hfail], rfl, ?abs, ?cont⟩
  case cont =>
    intro f' n' s' hroot hf' hn' hgate hok
    rw [sources_eq env debug specified_folders ret_all order hroot]
    rw [List.mem_filterMap]
    refine ⟨(f', n'), ?_, ?_⟩
    · exact ((hord _).mem_iff).mpr (modulesToLoad_mem hf' hn' hgate)
    · simp [_load_module, hok]
  intro hmem
  rw [List.mem_map] at hmem
  obtain ⟨⟨n, s⟩, hin, hfst⟩ := hmem
  have hn : n = module_name := hfst
  subst hn
  cases hroot : env.rootExists with
  | false => simp [sources, sourcesBody, hroot] at hin
  | true =>
    rw [sources_eq env debug specified_folders ret_all order hroot] at hin
    rw [List.mem_filterMap] at hin
    obtain ⟨p, hp, hload⟩ := hin
    unfold _load_module at hload
    cases hl : env.load p.1 p.2 with
    | ok src =>
      rw [hl] at hload
      simp only [Option.some.injEq, Prod.mk.injEq] at hload
      exact hallfail p.1 s (by rw [← hload.1, hl, hload.2])
    | error e' =>
      rw [hl] at hload
      simp at hload

/-- Witness for C6: on `envLoadFail` with diagnostics enabled, `b1`'s failed
load yields the `None` marker plus the formatted warning, `b1` is absent
from discovery's output, and the batch continues — the sibling `a1`, whose
load succeeds, is still collected. -/
theorem load_module_isolation_witness :
    (_load_module envLoadFail true "a" "b1").1 = none
    ∧ (_load_module envLoadFail true "a" "b1").2 = [loadErrorMessage "b1" "boom"]
    ∧ "b1" ∉ (sources envLoadFail true none true id).map Prod.fst
    ∧ ("a1", (⟨false, 0⟩ : Source)) ∈ sources envLoadFail true none true id := by
  have h := load_module_isolation envLoadFail true "a" "b1" "boom" none true id
    (fun l => List.Perm.refl l) rfl
    (fun f s hok => by simp [envLoadFail] at hok)
  refine ⟨h.1, by simpa using h.2.1, h.2.2.2.1, ?_⟩
  exact h.2.2.2.2 "a" "a1" ⟨false, 0⟩ rfl (by decide) (by decide) rfl rfl

end Cocoscrapers
